import Mathlib

/-!
# Tasked — task aggregation and derived-metrics engine, shallow embedding

Shallow embedding of the task engine in `src/src/components/TaskedApp.jsx`:
the pure logic of `prioritizeTasks`, the `filteredTasks` / `groupedTasks`
memos, `calculateMetrics`, `calculateStreak`, `determineFocusArea`, and the
two mutation handlers `handleToggleComplete` / `handleStatusChange`.

Modelling conventions:
* Instants (`Date.now()`, parsed `Date` values) are integers in milliseconds
  since the epoch (`Int`).  The local timezone is modelled with offset 0
  (UTC); every date-relative argument below is offset-independent.
* `date.setHours(0,0,0,0)` truncation followed by `toISOString()` identifies
  two instants exactly when they fall on the same (local) calendar day, i.e.
  when they have the same floor-division day index; `dayIndex` captures that.
  `cursor.setDate(today.getDate() - index)` steps the day index down by one.
* JavaScript number arithmetic on these integral millisecond values is exact
  (far below 2^53), so `Int` arithmetic is faithful.  The one float division,
  `diffDays = (due - now) / 86400000`, is only compared against `0` and `3`;
  float division by a positive constant is monotone and `3` is exactly
  `259200000 / 86400000`, so the comparisons agree with the integer
  comparisons `0 ≤ due - now` and `due - now ≤ 3 * 86400000` used here.
* `completionRate` and the percentage computations are modelled in `ℚ`.
  The thresholds `0.8`, `0.5`, `0.4` are modelled by the exact rationals;
  for the list sizes and exact boundary cases exercised by the theorems
  below the double computations agree with the rational ones.
* `Array.prototype.sort` (ES2019 and later) with a consistent comparator
  produces the unique stable sort for the induced total preorder; the
  comparator in `prioritizeTasks` is consistent (see `cmpMode`), and
  `List.insertionSort` computes exactly that stable sort.  The comparator
  value `Infinity - Infinity = NaN` is mapped to `±0` by the ES `SortCompare`
  operation, hence the `0` in the `none, none` case of `cmpDue`.
* JS truthiness tests on optional fields: a missing value is falsy; a number
  is falsy exactly when it is `0` (`jsTruthyNum`); the due-date strings
  stored by the app are never empty, so `!task.dueDate` is `isNone`.
-/

namespace Tasked

/-- One millisecond-count day, `1000 * 60 * 60 * 24`. -/
def msPerDay : Int := 86400000

/-- Calendar-day index of an instant: floor division by `msPerDay`
(`Int` division by a positive divisor floors).  Two instants have equal
`dayIndex` iff `setHours(0,0,0,0)` sends them to the same midnight. -/
def dayIndex (t : Int) : Int := t / msPerDay

/-- Closed priority set `{high, medium, low}` (spec §3; the `weights` table
in `prioritizeTasks` is total exactly on these three values). -/
inductive Priority where
  | high
  | medium
  | low
deriving DecidableEq, Repr

/-- `weights` table of `prioritizeTasks`: high=3, medium=2, low=1. -/
def weight : Priority → Int
  | .high => 3
  | .medium => 2
  | .low => 1

/-- Task record (spec §3 / the object literals of `TaskedApp.jsx`).
`status` stays a raw string because the grouping step must be examined on
unknown statuses; `tags` is optional because `handleCreateTask` can store
`undefined` tags (the quick-add form omits the field). -/
structure Task where
  id : String
  title : String
  description : Option String := none
  dueDate : Option Int := none
  status : String
  priority : Priority
  tags : Option (List String) := none
  createdAt : Option Int := none
  completedAt : Option Int := none
deriving DecidableEq, Repr

/-- `Object.keys(STATUS_LABELS)` — the four known statuses in declaration
order. -/
def statusKeys : List String := ["today", "upcoming", "backlog", "completed"]

/-! ## Sort (`prioritizeTasks`) -/

/-- The `dueDate`-mode comparator body:
`aTime - bTime` with a missing due date read as `Infinity`.
`Infinity - Infinity` is `NaN`, which ES `SortCompare` turns into `±0`;
`Infinity - finite` is `+Infinity` (any positive value compares the same);
`finite - Infinity` is `-Infinity`. -/
def cmpDue (a b : Task) : Int :=
  match a.dueDate, b.dueDate with
  | none, none => 0
  | none, some _ => 1
  | some _, none => -1
  | some x, some y => x - y

/-- The comparator passed to `sort` in `prioritizeTasks`, as a function of
the mode string: `priority` → `weights[b.priority] - weights[a.priority]`,
`dueDate` → `cmpDue`, anything else → `(b.createdAt ?? 0) - (a.createdAt ?? 0)`. -/
def cmpMode (mode : String) (a b : Task) : Int :=
  if mode = "priority" then weight b.priority - weight a.priority
  else if mode = "dueDate" then cmpDue a b
  else (b.createdAt.getD 0) - (a.createdAt.getD 0)

/-- "`a` need not go after `b`" for the JS sort: comparator value `≤ 0`. -/
def sortRel (mode : String) (a b : Task) : Prop := cmpMode mode a b ≤ 0

instance (mode : String) : DecidableRel (sortRel mode) := fun a b =>
  inferInstanceAs (Decidable (cmpMode mode a b ≤ 0))

/-- `prioritizeTasks(tasks, mode)`: `[...tasks].sort(comparator)`.
ES2019 `sort` with this (consistent) comparator is specified to return the
stable sort, which `List.insertionSort` computes; the input list is not
mutated (the source first copies the array). -/
def prioritizeTasks (tasks : List Task) (mode : String) : List Task :=
  tasks.insertionSort (sortRel mode)

/-! ## Filter (`filteredTasks`) -/

/-- Is `needle` a contiguous substring of `hay` (JS `String.includes`),
character-list version. -/
def charsInclude (needle : List Char) : List Char → Bool
  | [] => needle.isPrefixOf []
  | c :: rest => needle.isPrefixOf (c :: rest) || charsInclude needle rest

/-- JS `haystack.includes(needle)`. -/
def strIncludes (hay needle : String) : Bool :=
  charsInclude needle.toList hay.toList

/-- The search haystack:
`` `${task.title} ${task.description ?? ""} ${task.tags?.join(" ") ?? ""}`.toLowerCase() ``. -/
def haystack (t : Task) : String :=
  (t.title ++ " " ++ t.description.getD "" ++ " "
    ++ (t.tags.map (String.intercalate " ")).getD "").toLower

/-- The predicate of the `filteredTasks` memo, for one task:
the nested early-return chain of the source, then the search check.
`normalized` is the already-trimmed-and-lowercased search term. -/
def taskPasses (filt normalized : String) (task : Task) : Bool :=
  let searchOk : Bool :=
    if normalized ≠ "" then strIncludes (haystack task) normalized else true
  if filt ≠ "all" ∧ task.status ≠ filt then
    if filt = "high" ∧ task.priority ≠ Priority.high then false
    else if filt ≠ "high" then false
    else searchOk
  else searchOk

/-- `filteredTasks`: `searchTerm.trim().toLowerCase()`, then `tasks.filter`. -/
def filteredTasks (tasks : List Task) (filt searchTerm : String) : List Task :=
  tasks.filter (taskPasses filt (searchTerm.trim.toLower))

/-! ## Group (`groupedTasks`) -/

/-- One step of the `reduce` in `groupedTasks`:
`if (!acc[task.status]) acc[task.status] = []; acc[task.status].push(task)`.
A JS object with non-numeric string keys is an insertion-ordered map,
modelled as an association list. -/
def groupInsert (acc : List (String × List Task)) (task : Task) :
    List (String × List Task) :=
  if acc.any (fun p => p.1 == task.status) then
    acc.map (fun p => if p.1 == task.status then (p.1, p.2 ++ [task]) else p)
  else acc ++ [(task.status, [task])]

/-- The grouping reduce of `groupedTasks` over an already-sorted list. -/
def groupTasks (l : List Task) : List (String × List Task) :=
  l.foldl groupInsert []

/-- The full `groupedTasks` memo: filter, sort, group. -/
def groupedTasks (tasks : List Task) (filt searchTerm sortMode : String) :
    List (String × List Task) :=
  groupTasks (prioritizeTasks (filteredTasks tasks filt searchTerm) sortMode)

/-- Bucket lookup in the grouped mapping (reading `acc[status]`, with the
renderer's `?? []` default). -/
def bucketOf (g : List (String × List Task)) (s : String) : List Task :=
  ((g.find? (fun p => p.1 == s)).map Prod.snd).getD []

/-! ## Metrics (`calculateMetrics`, `calculateStreak`, `determineFocusArea`) -/

/-- JS truthiness of an optional number: missing or `0` is falsy. -/
def jsTruthyNum : Option Int → Bool
  | none => false
  | some v => v != 0

/-- The day an individual completed task contributes to the streak set:
`task.completedAt ? new Date(task.completedAt) : new Date(task.dueDate ?? task.createdAt)`,
truncated to its calendar day.  (If all three fields are absent the source
would throw on `Invalid Date`; the model totalizes that unreachable case
with instant `0`.) -/
def taskDay (t : Task) : Int :=
  if jsTruthyNum t.completedAt then dayIndex (t.completedAt.getD 0)
  else dayIndex ((t.dueDate.getD (t.createdAt.getD 0)))

/-- The backward walk of `calculateStreak`: for `fuel` remaining loop
iterations starting at offset `index`, count consecutive days present in
`days`, stopping at the first missing day. -/
def streakGo (days : List Int) (today : Int) : Nat → Nat → Nat
  | 0, _ => 0
  | fuel + 1, index =>
    if (today - (index : Int)) ∈ days then 1 + streakGo days today fuel (index + 1)
    else 0

/-- `calculateStreak(completedTasks)` relative to the instant `now`
(the source reads the clock via `new Date()`): empty guard, day set,
then a 10-iteration backward walk from today. -/
def calculateStreak (completedTasks : List Task) (now : Int) : Nat :=
  if completedTasks.length = 0 then 0
  else streakGo (completedTasks.map taskDay) (dayIndex now) 10 0

/-- A focus-area recommendation (`{title, body}` object). -/
structure FocusArea where
  title : String
  body : String
deriving DecidableEq, Repr

/-- The four messages of `determineFocusArea`. -/
def celebrateFocus : FocusArea :=
  ⟨"Celebrate & optimize",
   "Completion is above 80%. Look for light refactors, share updates, and tee up tomorrow’s wins."⟩

def deadlinesFocus : FocusArea :=
  ⟨"Tackle upcoming deadlines",
   "Several tasks land within the next three days. Block focus time or reassign where needed."⟩

def streamlineFocus : FocusArea :=
  ⟨"Streamline the workload",
   "There’s a lot in play. Prioritize the top three outcomes and nudge the rest to backlog or delegate."⟩

def habitFocus : FocusArea :=
  ⟨"Build the habit",
   "Light load today. Claim a quick win and set stretch goals for the week."⟩

/-- `determineFocusArea({completionRate, activeCount, dueSoon})`:
first-matching rule of the source's `if` chain.  `0.8` and `0.4` are the
exact rationals (see the header note on floats). -/
def determineFocusArea (completionRate : ℚ) (activeCount : Nat) (dueSoon : Nat) :
    FocusArea :=
  if completionRate ≥ 4/5 then celebrateFocus
  else if (dueSoon : Int) ≥ max 2 ⌈(activeCount : ℚ) * (2/5)⌉ then deadlinesFocus
  else if activeCount ≥ 6 then streamlineFocus
  else habitFocus

/-- JS `Math.round`: round half toward positive infinity. -/
def jsRound (q : ℚ) : Int := ⌊q + 1/2⌋

/-- One `byStatus` entry. -/
structure StatusStat where
  status : String
  count : Nat
  percentage : Int
deriving DecidableEq, Repr

/-- The record returned by `calculateMetrics`. -/
structure Metrics where
  completionRate : ℚ
  highPriority : Nat
  dueSoon : Nat
  activeCount : Nat
  streak : Nat
  momentumComment : String
  byStatus : List StatusStat
  focusArea : FocusArea
deriving DecidableEq, Repr

/-- `calculateMetrics(tasks)` relative to the instant `now`
(the source reads `Date.now()`). -/
def calculateMetrics (tasks : List Task) (now : Int) : Metrics :=
  let total : Nat := if tasks.length = 0 then 1 else tasks.length
  let completed := tasks.filter (fun t => t.status == "completed")
  let active := tasks.filter (fun t => t.status != "completed")
  let completionRate : ℚ := (completed.length : ℚ) / (total : ℚ)
  let dueSoon := (active.filter (fun t =>
    match t.dueDate with
    | none => false
    | some d => decide (0 ≤ d - now ∧ d - now ≤ 3 * msPerDay))).length
  let highPriority := (active.filter (fun t => t.priority == Priority.high)).length
  let streak := calculateStreak completed now
  let byStatus := statusKeys.map (fun status =>
    let count := (tasks.filter (fun t => t.status == status)).length
    StatusStat.mk status count
      (if total = 0 then 0 else jsRound (((count : ℚ) / (total : ℚ)) * 100)))
  let focusArea := determineFocusArea completionRate active.length dueSoon
  let momentumComment :=
    if completionRate ≥ 4/5 then "Momentum high — keep stacking wins!"
    else if completionRate ≥ 1/2 then "Solid pace. What’s the next domino?"
    else "Plot your next move and reclaim the day."
  { completionRate := completionRate
    highPriority := highPriority
    dueSoon := dueSoon
    activeCount := active.length
    streak := streak
    momentumComment := momentumComment
    byStatus := byStatus
    focusArea := focusArea }

/-! ## Mutation handlers -/

/-- `handleToggleComplete(taskId)` applied to the collection, with `now`
the instant `Date.now()` read inside the updater. -/
def handleToggleComplete (now : Int) (taskId : String) (tasks : List Task) :
    List Task :=
  tasks.map fun task =>
    if task.id == taskId then
      let isDone := task.status == "completed"
      { task with
        status := if isDone then "today" else "completed"
        completedAt := if isDone then none else some now }
    else task

/-- `handleStatusChange(taskId, nextStatus)` applied to the collection. -/
def handleStatusChange (taskId nextStatus : String) (tasks : List Task) :
    List Task :=
  tasks.map fun task =>
    if task.id == taskId then { task with status := nextStatus } else task

/-! ## Spec-side definitions (for refinement comparisons) -/

/-- Modelled from the spec (§4.4 streak): the day a completed task
contributes, "`completedAt` if present, else its `dueDate` if present, else
its `createdAt`" — presence read literally as the field being set, with no
truthiness test.  Compared against the source's `taskDay`. -/
def specCompletedDay (t : Task) : Int :=
  match t.completedAt with
  | some c => dayIndex c
  | none =>
    match t.dueDate with
    | some d => dayIndex d
    | none => dayIndex (t.createdAt.getD 0)

/-- Modelled from the spec (§4.4 streak): the streak walk over the
spec-side day set `specCompletedDay`. -/
def specStreak (completedTasks : List Task) (now : Int) : Nat :=
  if completedTasks.length = 0 then 0
  else streakGo (completedTasks.map specCompletedDay) (dayIndex now) 10 0

/-! ## Sort keys

The per-mode sort key, valued in `WithTop ℤ` so that a missing due date is
`⊤` ("treated as positive infinity", spec §4.2).  For the descending modes
the key is the negated weight / negated creation instant, so that every
mode sorts ascending by its key and the comparator sign agrees with the
key order (`sortRel_iff_key` below). -/

/-- Due-date sort key: the due instant, `⊤` when absent. -/
def dueKey (t : Task) : WithTop ℤ :=
  match t.dueDate with
  | none => ⊤
  | some d => (d : WithTop ℤ)

/-- The sort key induced by the comparator of `prioritizeTasks` for each
mode (negated where the JS comparator sorts descending). -/
def modeKey (mode : String) (t : Task) : WithTop ℤ :=
  if mode = "priority" then ((-(weight t.priority) : ℤ) : WithTop ℤ)
  else if mode = "dueDate" then dueKey t
  else ((-(t.createdAt.getD 0) : ℤ) : WithTop ℤ)

/-! ## Concrete instances used by counterexamples and witnesses -/

/-- Spec §8 scenario task A: priority high, due in 5 days. -/
def sampleA : Task :=
  { id := "A", title := "A", dueDate := some (5 * msPerDay),
    status := "today", priority := .high }

/-- Spec §8 scenario task B: priority low, due in 1 day. -/
def sampleB : Task :=
  { id := "B", title := "B", dueDate := some (1 * msPerDay),
    status := "today", priority := .low }

/-- Spec §8 scenario task C: priority medium, due in 2 days. -/
def sampleC : Task :=
  { id := "C", title := "C", dueDate := some (2 * msPerDay),
    status := "today", priority := .medium }

/-- A second high-priority task, tied with `sampleA` under the priority
key. -/
def sampleD : Task :=
  { id := "D", title := "D", status := "upcoming", priority := .high }

/-- An active task due at the very start of the current calendar day. -/
def tDueToday : Task :=
  { id := "due-today", title := "due earlier today", dueDate := some 0,
    status := "today", priority := .medium }

/-- A task carrying a status outside the four known values. -/
def tUnknown : Task :=
  { id := "u", title := "unknown status", status := "someday",
    priority := .low }

/-- A completed task whose `completedAt` is the epoch instant `0` (present
but falsy in JS), created five days earlier. -/
def tEpoch : Task :=
  { id := "e", title := "completed at the epoch", status := "completed",
    priority := .low, createdAt := some (-(5 * msPerDay)),
    completedAt := some 0 }

/-- A backlog task with tags, for search-filter witnesses. -/
def taggedTask : Task :=
  { id := "g", title := "Fix CI", status := "backlog", priority := .medium,
    tags := some ["DevOps", "Automation"] }

/-- A completed task with the given id suffix. -/
def doneTask (i : Nat) : Task :=
  { id := "done" ++ toString i, title := "done", status := "completed",
    priority := .low, createdAt := some 1, completedAt := some 1 }

/-- An active task with the given id suffix. -/
def liveTask (i : Nat) : Task :=
  { id := "live" ++ toString i, title := "live", status := "today",
    priority := .high }

/-- Ten tasks, eight of them completed (spec §8 scenario for `focusArea`). -/
def tenTasks : List Task :=
  [doneTask 0, doneTask 1, doneTask 2, doneTask 3, doneTask 4, doneTask 5,
   doneTask 6, doneTask 7, liveTask 8, liveTask 9]

/-- A task completed shortly after midnight of calendar day `d`. -/
def completedOn (i : Nat) (d : Int) : Task :=
  { id := "c" ++ toString i, title := "c", status := "completed",
    priority := .low, completedAt := some (d * msPerDay + 100) }

/-- Tasks completed on each of calendar days 2, 1 and 0 (the last three
days seen from a `now` on day 2), with a gap on day -1. -/
def threeDayTasks : List Task :=
  [completedOn 0 2, completedOn 1 1, completedOn 2 0]

/-! ## Sort: comparator–key bridge, stability, congruence -/

/-- The JS comparator relation agrees with the `WithTop ℤ` key order in
every mode. -/
theorem sortRel_iff_key (mode : String) (a b : Task) :
    sortRel mode a b ↔ modeKey mode a ≤ modeKey mode b := by
  by_cases h1 : mode = "priority"
  · simp only [sortRel, cmpMode, modeKey, if_pos h1, WithTop.coe_le_coe]
    omega
  · by_cases h2 : mode = "dueDate"
    · simp only [sortRel, cmpMode, modeKey, if_neg h1, if_pos h2]
      cases ha : a.dueDate with
      | none =>
        cases hb : b.dueDate with
        | none => simp [cmpDue, dueKey, ha, hb]
        | some y =>
          simp [cmpDue, dueKey, ha, hb, top_le_iff]
      | some x =>
        cases hb : b.dueDate with
        | none => simp [cmpDue, dueKey, ha, hb, le_top]
        | some y =>
          simp only [cmpDue, dueKey, ha, hb, WithTop.coe_le_coe]
          omega
    · simp only [sortRel, cmpMode, modeKey, if_neg h1, if_neg h2, WithTop.coe_le_coe]
      omega

/-- The comparator relation is total (the comparator is antisymmetric in
sign). -/
theorem sortRel_total (mode : String) (a b : Task) :
    sortRel mode a b ∨ sortRel mode b a := by
  rcases le_total (modeKey mode a) (modeKey mode b) with h | h
  · exact Or.inl ((sortRel_iff_key mode a b).2 h)
  · exact Or.inr ((sortRel_iff_key mode b a).2 h)

/-- The comparator relation is transitive. -/
theorem sortRel_trans (mode : String) (a b c : Task) :
    sortRel mode a b → sortRel mode b c → sortRel mode a c := by
  intro hab hbc
  exact (sortRel_iff_key mode a c).2
    (le_trans ((sortRel_iff_key mode a b).1 hab) ((sortRel_iff_key mode b c).1 hbc))

/-- Inserting an element not satisfying `p` does not change the
`p`-filtered subsequence. -/
theorem filter_orderedInsert_of_neg {α : Type} (r : α → α → Prop) [DecidableRel r]
    (p : α → Bool) (x : α) (hx : p x = false) (l : List α) :
    (List.orderedInsert r x l).filter p = l.filter p := by
  induction l with
  | nil => simp [List.orderedInsert, hx]
  | cons y l ih =>
    by_cases h : r x y
    · simp [List.orderedInsert, if_pos h, List.filter_cons, hx]
    · simp only [List.orderedInsert, if_neg h, List.filter_cons, ih]

/-- Inserting an element satisfying `p`, when every element it jumps over
fails `p`, prepends it to the `p`-filtered subsequence. -/
theorem filter_orderedInsert_of_pos {α : Type} (r : α → α → Prop) [DecidableRel r]
    (p : α → Bool) (x : α) (hx : p x = true)
    (hskip : ∀ y, ¬ r x y → p y = false) (l : List α) :
    (List.orderedInsert r x l).filter p = x :: l.filter p := by
  induction l with
  | nil => simp [List.orderedInsert, hx]
  | cons y l ih =>
    by_cases h : r x y
    · simp [List.orderedInsert, if_pos h, List.filter_cons, hx]
    · have hy := hskip y h
      simp [List.orderedInsert, if_neg h, List.filter_cons, hy, ih]

/-- Stability core: when the sort relation is induced by a key into a
linear order, insertion sort preserves the subsequence of elements at any
fixed key value. -/
theorem filter_insertionSort_key {α K : Type} [LinearOrder K] [DecidableEq K]
    (r : α → α → Prop) [DecidableRel r] (k : α → K)
    (hr : ∀ a b, r a b ↔ k a ≤ k b) (v : K) (l : List α) :
    (l.insertionSort r).filter (fun t => decide (k t = v))
      = l.filter (fun t => decide (k t = v)) := by
  induction l with
  | nil => rfl
  | cons x l ih =>
    rw [List.insertionSort]
    by_cases hx : k x = v
    · have hskip : ∀ y, ¬ r x y → (fun t => decide (k t = v)) y = false := by
        intro y hy
        simp only [decide_eq_false_iff_not]
        intro hkv
        exact hy ((hr x y).2 (le_of_eq (hx.trans hkv.symm)))
      rw [filter_orderedInsert_of_pos r _ x (by simp [hx]) hskip, ih]
      simp [List.filter_cons, hx]
    · rw [filter_orderedInsert_of_neg r _ x (by simp [hx]), ih]
      simp [List.filter_cons, hx]

/-- `orderedInsert` only depends on the relation extensionally. -/
theorem orderedInsert_congr_rel {α : Type} {r s : α → α → Prop}
    [DecidableRel r] [DecidableRel s]
    (h : ∀ a b, r a b ↔ s a b) (x : α) (l : List α) :
    List.orderedInsert r x l = List.orderedInsert s x l := by
  induction l with
  | nil => rfl
  | cons y l ih =>
    by_cases hr : r x y
    · rw [List.orderedInsert, if_pos hr, List.orderedInsert, if_pos ((h x y).1 hr)]
    · rw [List.orderedInsert, if_neg hr, List.orderedInsert,
        if_neg (fun hs => hr ((h x y).2 hs)), ih]

/-- `insertionSort` only depends on the relation extensionally. -/
theorem insertionSort_congr_rel {α : Type} {r s : α → α → Prop}
    [DecidableRel r] [DecidableRel s]
    (h : ∀ a b, r a b ↔ s a b) (l : List α) :
    l.insertionSort r = l.insertionSort s := by
  induction l with
  | nil => rfl
  | cons x l ih =>
    rw [List.insertionSort, List.insertionSort, ih, orderedInsert_congr_rel h]

/-- C4: `prioritizeTasks` orders by the mode's key without mutating its
input (the model is pure; the source sorts a copy of the array): mode
`"priority"` sorts descending by weight (high=3, medium=2, low=1); mode
`"dueDate"` sorts ascending by due-date instant with tasks lacking a due
date last (key `⊤`); and any other mode, unrecognized ones included, sorts
descending by creation instant with a missing creation instant treated as
`0` — identically to mode `"createdAt"`. -/
theorem prioritizeTasks_spec (xs : List Task) (mode : String) :
    (prioritizeTasks xs mode).Perm xs
    ∧ (mode = "priority" →
        List.Sorted (fun a b => weight b.priority ≤ weight a.priority)
          (prioritizeTasks xs mode))
    ∧ (mode = "dueDate" →
        List.Sorted (fun a b => dueKey a ≤ dueKey b) (prioritizeTasks xs mode))
    ∧ (mode ≠ "priority" → mode ≠ "dueDate" →
        List.Sorted (fun a b => b.createdAt.getD 0 ≤ a.createdAt.getD 0)
          (prioritizeTasks xs mode)
        ∧ prioritizeTasks xs mode = prioritizeTasks xs "createdAt") := by
  haveI : IsTotal Task (sortRel mode) := ⟨sortRel_total mode⟩
  haveI : IsTrans Task (sortRel mode) := ⟨fun a b c => sortRel_trans mode a b c⟩
  have hsorted := List.sorted_insertionSort (sortRel mode) xs
  refine ⟨List.perm_insertionSort (sortRel mode) xs, ?_, ?_, ?_⟩
  · intro hm
    subst hm
    refine hsorted.imp ?_
    intro a b hab
    simp [sortRel, cmpMode] at hab
    omega
  · intro hm
    subst hm
    refine hsorted.imp ?_
    intro a b hab
    have h := (sortRel_iff_key "dueDate" a b).1 hab
    simpa [modeKey] using h
  · intro hm1 hm2
    constructor
    · refine hsorted.imp ?_
      intro a b hab
      simp only [sortRel, cmpMode, if_neg hm1, if_neg hm2] at hab
      omega
    · refine insertionSort_congr_rel ?_ xs
      intro a b
      simp [sortRel, cmpMode, if_neg hm1, if_neg hm2]

/-- C4 witness: the spec §8 scenario tasks, evaluated in each branch. -/
theorem prioritizeTasks_spec_witness :
    (prioritizeTasks [sampleA, sampleB, sampleC] "priority").Perm
        [sampleA, sampleB, sampleC]
    ∧ List.Sorted (fun a b => weight b.priority ≤ weight a.priority)
        (prioritizeTasks [sampleA, sampleB, sampleC] "priority")
    ∧ List.Sorted (fun a b => dueKey a ≤ dueKey b)
        (prioritizeTasks [sampleA, sampleB, sampleC] "dueDate")
    ∧ prioritizeTasks [sampleA, sampleB, sampleC] "bogus"
        = prioritizeTasks [sampleA, sampleB, sampleC] "createdAt" :=
  ⟨(prioritizeTasks_spec [sampleA, sampleB, sampleC] "priority").1,
   (prioritizeTasks_spec [sampleA, sampleB, sampleC] "priority").2.1 rfl,
   (prioritizeTasks_spec [sampleA, sampleB, sampleC] "dueDate").2.2.1 rfl,
   ((prioritizeTasks_spec [sampleA, sampleB, sampleC] "bogus").2.2.2
      (by decide) (by decide)).2⟩

/-- C5: the sort is stable in all three modes.  Stated in the standard
form: for every mode and every key value, filtering the output down to the
tasks at that sort key returns exactly the same subsequence as filtering
the input — so any two tasks with equal keys keep their relative input
order; in particular a two-element list with tied keys is returned
unchanged. -/
theorem prioritizeTasks_stable (mode : String) (xs : List Task) (v : WithTop ℤ) :
    (prioritizeTasks xs mode).filter (fun t => decide (modeKey mode t = v))
      = xs.filter (fun t => decide (modeKey mode t = v))
    ∧ ∀ a b : Task, modeKey mode a = modeKey mode b →
        prioritizeTasks [a, b] mode = [a, b] := by
  constructor
  · exact filter_insertionSort_key (sortRel mode) (modeKey mode)
      (fun a b => sortRel_iff_key mode a b) v xs
  · intro a b hab
    have hr : sortRel mode a b := (sortRel_iff_key mode a b).2 (le_of_eq hab)
    simp only [prioritizeTasks, List.insertionSort, List.orderedInsert]
    rw [if_pos hr]

/-- C5 witness: two tied high-priority tasks stay in input order. -/
theorem prioritizeTasks_stable_witness :
    (prioritizeTasks [sampleA, sampleD] "priority").filter
        (fun t => decide (modeKey "priority" t = ((-3 : ℤ) : WithTop ℤ)))
      = [sampleA, sampleD].filter
          (fun t => decide (modeKey "priority" t = ((-3 : ℤ) : WithTop ℤ)))
    ∧ prioritizeTasks [sampleA, sampleD] "priority" = [sampleA, sampleD] :=
  ⟨(prioritizeTasks_stable "priority" [sampleA, sampleD]
      ((-3 : ℤ) : WithTop ℤ)).1,
   (prioritizeTasks_stable "priority" [sampleA, sampleD]
      ((-3 : ℤ) : WithTop ℤ)).2 sampleA sampleD (by decide)⟩

/-! ## Filter -/

/-- The per-task filter predicate, rephrased from the source's early-return
chain into the spec's disjunction, assuming the task's status is one of the
four known values. -/
theorem taskPasses_iff (crit norm : String) (t : Task) (hst : t.status ∈ statusKeys) :
    taskPasses crit norm t = true ↔
      ((crit = "all" ∨ (crit = "high" ∧ t.priority = Priority.high)
        ∨ (crit ∈ statusKeys ∧ t.status = crit))
      ∧ (norm = "" ∨ strIncludes (haystack t) norm = true)) := by
  by_cases hall : crit = "all" <;>
  by_cases hstat : t.status = crit <;>
  by_cases hhigh : crit = "high" <;>
  by_cases hp : t.priority = Priority.high <;>
  by_cases hn : norm = "" <;>
  simp_all [taskPasses, statusKeys]

/-- C3: membership in the filter output holds iff the task is in the input,
matches the criterion — `"all"` passes everything, `"high"` requires high
priority, a status value requires equal status — and matches the trimmed,
case-folded search term (vacuously when it is empty, else by substring
search over the title/description/tags haystack), assuming every task's
status is one of the four known values. -/
theorem filteredTasks_spec (tasks : List Task) (crit s : String) (t : Task)
    (hw : ∀ u ∈ tasks, u.status ∈ statusKeys) :
    t ∈ filteredTasks tasks crit s ↔
      t ∈ tasks
      ∧ (crit = "all" ∨ (crit = "high" ∧ t.priority = Priority.high)
          ∨ (crit ∈ statusKeys ∧ t.status = crit))
      ∧ (s.trim.toLower = "" ∨ strIncludes (haystack t) (s.trim.toLower) = true) := by
  simp only [filteredTasks, List.mem_filter]
  constructor
  · rintro ⟨ht, hpass⟩
    exact ⟨ht, (taskPasses_iff crit _ t (hw t ht)).1 hpass⟩
  · rintro ⟨ht, hcrit, hsearch⟩
    exact ⟨ht, (taskPasses_iff crit _ t (hw t ht)).2 ⟨hcrit, hsearch⟩⟩

/-- C3 witness: a tagged backlog task under criterion `"all"` and the
search term `"  AUTO "` (matches the tag `"Automation"` after trimming and
case folding). -/
theorem filteredTasks_spec_witness :
    taggedTask ∈ filteredTasks [taggedTask, sampleA] "all" "  AUTO " ↔
      taggedTask ∈ [taggedTask, sampleA]
      ∧ ("all" = "all" ∨ ("all" = "high" ∧ taggedTask.priority = Priority.high)
          ∨ ("all" ∈ statusKeys ∧ taggedTask.status = "all"))
      ∧ ("  AUTO ".trim.toLower = ""
          ∨ strIncludes (haystack taggedTask) ("  AUTO ".trim.toLower) = true) :=
  filteredTasks_spec [taggedTask, sampleA] "all" "  AUTO " taggedTask (by decide)

/-! ## Group -/

/-- Effect of one `groupInsert` step on a single bucket. -/
theorem bucketOf_groupInsert (acc : List (String × List Task)) (t : Task) (s : String) :
    bucketOf (groupInsert acc t) s =
      if t.status == s then bucketOf acc s ++ [t] else bucketOf acc s := by
  unfold groupInsert bucketOf
  by_cases hany : acc.any (fun p => p.1 == t.status) = true
  · rw [if_pos hany, List.find?_map]
    have hcomp : ((fun q : String × List Task => q.1 == s)
          ∘ (fun p : String × List Task =>
              if p.1 == t.status then (p.1, p.2 ++ [t]) else p))
        = (fun q : String × List Task => q.1 == s) := by
      funext p
      by_cases h : p.1 = t.status <;> simp [h]
    rw [hcomp]
    cases hfind : acc.find? (fun q => q.1 == s) with
    | none =>
      by_cases hts : (t.status == s) = true
      · rcases List.any_eq_true.1 hany with ⟨p, hpmem, hps⟩
        have h1 : p.1 = t.status := by simpa using hps
        have h2 : t.status = s := by simpa using hts
        have := List.find?_eq_none.1 hfind p hpmem
        simp [h1, h2] at this
      · simp [hts]
    | some q =>
      have hq : q.1 = s := by simpa using List.find?_some hfind
      by_cases hts : (t.status == s) = true
      · have h2 : t.status = s := by simpa using hts
        simp [hts, hq, h2]
      · have h2 : ¬ t.status = s := by simpa using hts
        have hq2 : ¬ q.1 = t.status := by
          rw [hq]
          exact fun h => h2 h.symm
        simp [hts, hq2]
  · rw [if_neg hany, List.find?_append]
    cases hfind : acc.find? (fun q => q.1 == s) with
    | none =>
      by_cases hts : (t.status == s) = true
      · simp [hts]
      · simp [hts]
    | some q =>
      have hq : q.1 = s := by simpa using List.find?_some hfind
      have hts : ¬ (t.status == s) = true := by
        intro h
        have h2 : t.status = s := by simpa using h
        exact hany (List.any_eq_true.2 ⟨q, List.mem_of_find?_eq_some hfind, by simp [hq, h2]⟩)
      simp [hts]

/-- Effect of the whole grouping fold on a single bucket. -/
theorem bucketOf_foldl (l : List Task) :
    ∀ (acc : List (String × List Task)) (s : String),
      bucketOf (l.foldl groupInsert acc) s
        = bucketOf acc s ++ l.filter (fun t => t.status == s) := by
  induction l with
  | nil => intro acc s; simp
  | cons t l ih =>
    intro acc s
    rw [List.foldl_cons, ih, bucketOf_groupInsert, List.filter_cons]
    by_cases h : (t.status == s) = true
    · simp [h]
    · simp [h]

/-- The keys created by one `groupInsert` step. -/
theorem mem_keys_groupInsert (acc : List (String × List Task)) (t : Task) (s : String) :
    s ∈ (groupInsert acc t).map Prod.fst ↔ s ∈ acc.map Prod.fst ∨ s = t.status := by
  unfold groupInsert
  by_cases hany : acc.any (fun p => p.1 == t.status) = true
  · rw [if_pos hany]
    have hkeys : (acc.map (fun p : String × List Task =>
          if p.1 == t.status then (p.1, p.2 ++ [t]) else p)).map Prod.fst
        = acc.map Prod.fst := by
      rw [List.map_map]
      apply List.map_congr_left
      intro p _
      by_cases h : p.1 = t.status <;> simp [h]
    rw [hkeys]
    constructor
    · exact Or.inl
    · rintro (h | rfl)
      · exact h
      · rcases List.any_eq_true.1 hany with ⟨p, hpmem, hps⟩
        have h1 : p.1 = t.status := by simpa using hps
        exact h1 ▸ List.mem_map_of_mem Prod.fst hpmem
  · rw [if_neg hany]
    simp

/-- The keys created by the whole grouping fold. -/
theorem mem_keys_foldl (l : List Task) :
    ∀ (acc : List (String × List Task)) (s : String),
      s ∈ (l.foldl groupInsert acc).map Prod.fst ↔
        s ∈ acc.map Prod.fst ∨ s ∈ l.map Task.status := by
  induction l with
  | nil => intro acc s; simp
  | cons t l ih =>
    intro acc s
    rw [List.foldl_cons, ih, mem_keys_groupInsert]
    simp [or_assoc, eq_comm]

/-- C2 counterexample: grouping a task whose status is the unknown value
`"someday"` produces a mapping whose only key is `"someday"` — not one of
the four known statuses — and the task appears in that bucket, so it is not
dropped from the grouped output. -/
theorem groupTasks_unknown_status_key :
    groupTasks [tUnknown] = [("someday", [tUnknown])]
    ∧ "someday" ∉ statusKeys
    ∧ tUnknown ∈ bucketOf (groupTasks [tUnknown]) "someday" := by
  decide

/-- C2 amended: the grouped mapping's bucket for any status `s` is exactly
the input subsequence with status `s`, and `s` is a key of the mapping iff
some input task has status `s` — so a task with an unknown status appears
under its own status key (which the board, rendering only the four known
columns, never shows) rather than being dropped from the mapping. -/
theorem groupTasks_spec (l : List Task) (s : String) :
    bucketOf (groupTasks l) s = l.filter (fun t => t.status == s)
    ∧ (s ∈ (groupTasks l).map Prod.fst ↔ s ∈ l.map Task.status) := by
  constructor
  · have h := bucketOf_foldl l [] s
    simpa [groupTasks, bucketOf] using h
  · have h := mem_keys_foldl l [] s
    simpa [groupTasks] using h

/-! ## Streak -/

/-- The walk counts at most its remaining fuel. -/
theorem streakGo_le (days : List Int) (today : Int) :
    ∀ (fuel index : Nat), streakGo days today fuel index ≤ fuel := by
  intro fuel
  induction fuel with
  | zero => intro index; simp [streakGo]
  | succ n ih =>
    intro index
    simp only [streakGo]
    by_cases h : (today - (index : Int)) ∈ days
    · rw [if_pos h]
      have := ih (index + 1)
      omega
    · rw [if_neg h]
      exact Nat.zero_le _

/-- Every day reached by the walk is present in the day set. -/
theorem streakGo_mem (days : List Int) (today : Int) :
    ∀ (fuel index i : Nat), i < streakGo days today fuel index →
      (today - ((index + i : Nat) : Int)) ∈ days := by
  intro fuel
  induction fuel with
  | zero => intro index i h; simp [streakGo] at h
  | succ n ih =>
    intro index i h
    simp only [streakGo] at h
    by_cases hmem : (today - (index : Int)) ∈ days
    · rw [if_pos hmem] at h
      cases i with
      | zero => simpa using hmem
      | succ j =>
        have hj : j < streakGo days today n (index + 1) := by omega
        have hrec := ih (index + 1) j hj
        have heq : ((index + 1) + j : Nat) = (index + (j + 1) : Nat) := by omega
        rw [heq] at hrec
        exact hrec
    · rw [if_neg hmem] at h
      omega

/-- When the walk stops short of its fuel, the next day is missing. -/
theorem streakGo_stop (days : List Int) (today : Int) :
    ∀ (fuel index : Nat), streakGo days today fuel index < fuel →
      (today - ((index + streakGo days today fuel index : Nat) : Int)) ∉ days := by
  intro fuel
  induction fuel with
  | zero => intro index h; omega
  | succ n ih =>
    intro index h
    simp only [streakGo] at h ⊢
    by_cases hmem : (today - (index : Int)) ∈ days
    · rw [if_pos hmem] at h ⊢
      have h2 : streakGo days today n (index + 1) < n := by omega
      have hrec := ih (index + 1) h2
      have heq : ((index + 1) + streakGo days today n (index + 1) : Nat)
          = (index + (1 + streakGo days today n (index + 1)) : Nat) := by omega
      rw [heq] at hrec
      exact hrec
    · rw [if_neg hmem] at h ⊢
      simpa using hmem

/-- Spec §8 scenario instance: three consecutive days present, a gap on the
fourth. -/
theorem streakGo_three (days : List Int) (today : Int)
    (h0 : today ∈ days) (h1 : today - 1 ∈ days) (h2 : today - 2 ∈ days)
    (h3 : today - 3 ∉ days) : streakGo days today 10 0 = 3 := by
  norm_num [streakGo, h0, h1, h2, h3]

/-- C7 counterexample: a completed task whose `completedAt` is present but
equal to `0` (the epoch) is falsy in JS, so the source falls back to
`dueDate ?? createdAt` while the spec's "completedAt if present" rule does
not: with `createdAt` five days back and `now` at noon of epoch day, the
code computes streak `0` while the spec-side streak is `1`. -/
theorem calculateStreak_epoch_divergence :
    tEpoch.status = "completed"
    ∧ tEpoch.completedAt = some 0
    ∧ calculateStreak [tEpoch] 43200000 = 0
    ∧ specStreak [tEpoch] 43200000 = 1 := by
  decide

/-- C7 amended: the streak is the number of consecutive calendar days,
starting at today and walking backward (today inclusive), present in the
set of midnight-truncated days derived from each completed task's
`completedAt` if present and nonzero (JS truthiness), else its `dueDate`
if present, else its `createdAt` (`taskDay`); the walk stops at the first
missing day or after 10 days checked, so the streak is at most 10, is 0
for no completed tasks, and is exactly 3 when the last three days are
present and the fourth is missing. -/
theorem calculateStreak_spec (l : List Task) (now : Int) :
    calculateStreak l now ≤ 10
    ∧ (l = [] → calculateStreak l now = 0)
    ∧ (∀ i : Nat, i < calculateStreak l now →
        (dayIndex now - (i : Int)) ∈ l.map taskDay)
    ∧ (l ≠ [] → calculateStreak l now < 10 →
        (dayIndex now - (calculateStreak l now : Int)) ∉ l.map taskDay)
    ∧ (l ≠ [] → dayIndex now ∈ l.map taskDay → dayIndex now - 1 ∈ l.map taskDay →
        dayIndex now - 2 ∈ l.map taskDay → dayIndex now - 3 ∉ l.map taskDay →
        calculateStreak l now = 3) := by
  refine ⟨?_, ?_, ?_, ?_, ?_⟩
  · unfold calculateStreak
    split
    · omega
    · exact streakGo_le _ _ 10 0
  · intro h
    subst h
    rfl
  · intro i hi
    unfold calculateStreak at hi
    by_cases hl : l.length = 0
    · rw [if_pos hl] at hi
      omega
    · rw [if_neg hl] at hi
      have h := streakGo_mem (l.map taskDay) (dayIndex now) 10 0 i hi
      simpa using h
  · intro hne hlt
    have hl : ¬ l.length = 0 := by simpa [List.length_eq_zero] using hne
    unfold calculateStreak at hlt ⊢
    rw [if_neg hl] at hlt ⊢
    have h := streakGo_stop (l.map taskDay) (dayIndex now) 10 0 hlt
    simpa using h
  · intro hne h0 h1 h2 h3
    have hl : ¬ l.length = 0 := by simpa [List.length_eq_zero] using hne
    unfold calculateStreak
    rw [if_neg hl]
    exact streakGo_three _ _ h0 h1 h2 h3

/-- C7 witness: tasks completed on the last three calendar days with a gap
on the fourth give streak 3, within the bound of 10. -/
theorem calculateStreak_spec_witness :
    calculateStreak threeDayTasks (2 * msPerDay + 500) ≤ 10
    ∧ calculateStreak threeDayTasks (2 * msPerDay + 500) = 3 :=
  ⟨(calculateStreak_spec threeDayTasks (2 * msPerDay + 500)).1,
   (calculateStreak_spec threeDayTasks (2 * msPerDay + 500)).2.2.2.2
     (by decide) (by decide) (by decide) (by decide) (by decide)⟩

/-! ## Metrics projections -/

/-- The `dueSoon` field of the metrics record, by definition. -/
theorem metrics_dueSoon_def (tasks : List Task) (now : Int) :
    (calculateMetrics tasks now).dueSoon
      = ((tasks.filter (fun t => t.status != "completed")).filter (fun t =>
          match t.dueDate with
          | none => false
          | some d => decide (0 ≤ d - now ∧ d - now ≤ 3 * msPerDay))).length := rfl

/-- The `completionRate` field of the metrics record, by definition. -/
theorem metrics_completionRate_def (tasks : List Task) (now : Int) :
    (calculateMetrics tasks now).completionRate
      = ((tasks.filter (fun t => t.status == "completed")).length : ℚ)
          / ((if tasks.length = 0 then 1 else tasks.length : Nat) : ℚ) := rfl

/-- The `focusArea` field of the metrics record, by definition. -/
theorem metrics_focusArea_def (tasks : List Task) (now : Int) :
    (calculateMetrics tasks now).focusArea
      = determineFocusArea (calculateMetrics tasks now).completionRate
          (calculateMetrics tasks now).activeCount
          (calculateMetrics tasks now).dueSoon := rfl

/-! ## Due soon (C1) -/

/-- C1 counterexample: an active task whose due date is today's calendar
date but whose due instant (midnight) is before `now` (15:00 the same day)
is NOT counted by `dueSoon` — the source compares instants, not calendar
days, so "difference of 0 days" does not imply inclusion. -/
theorem dueSoon_same_day_excluded :
    tDueToday.status ≠ "completed"
    ∧ tDueToday.dueDate = some 0
    ∧ dayIndex 0 = dayIndex 54000000
    ∧ (calculateMetrics [tDueToday] 54000000).dueSoon = 0 := by
  decide

/-- C1 amended: `dueSoon` counts exactly the tasks with status not
`completed` whose due instant lies in the inclusive window
`[now, now + 3 days]`, tasks with no due date never counting; an active
task due on today's calendar date is counted iff its due instant is not
before `now`, and an active task whose due date falls on an earlier
calendar day (yesterday included) is never counted. -/
theorem dueSoon_spec (tasks : List Task) (now : Int) :
    ((calculateMetrics tasks now).dueSoon
      = tasks.countP (fun t => t.status != "completed"
          && (match t.dueDate with
              | none => false
              | some d => decide (now ≤ d ∧ d ≤ now + 3 * msPerDay))))
    ∧ ∀ (t : Task) (d : Int), t.status ≠ "completed" → t.dueDate = some d →
        ((dayIndex d = dayIndex now →
            (calculateMetrics [t] now).dueSoon = if now ≤ d then 1 else 0)
        ∧ (dayIndex d < dayIndex now → (calculateMetrics [t] now).dueSoon = 0)) := by
  constructor
  · rw [metrics_dueSoon_def, List.filter_filter, List.countP_eq_length_filter]
    congr 1
    apply List.filter_congr
    intro t _
    cases hd : t.dueDate with
    | none => simp
    | some d =>
      simp only [hd]
      have hiff : decide (0 ≤ d - now ∧ d - now ≤ 3 * msPerDay)
          = decide (now ≤ d ∧ d ≤ now + 3 * msPerDay) := by
        rw [decide_eq_decide]
        constructor <;> (intro h; omega)
      rw [hiff, Bool.and_comm]
  · intro t d hs hd
    have hst : (t.status != "completed") = true := by simpa using hs
    constructor
    · intro hday
      simp only [dayIndex, msPerDay] at hday
      by_cases h2 : now ≤ d
      · have h3 : d ≤ 3 * msPerDay + now := by
          simp only [msPerDay]
          omega
        rw [metrics_dueSoon_def]
        simp [hst, hd, h2, h3]
      · rw [metrics_dueSoon_def]
        simp [hst, hd, h2]
    · intro hday
      simp only [dayIndex, msPerDay] at hday
      have h2 : ¬ now ≤ d := by omega
      rw [metrics_dueSoon_def]
      simp [hst, hd, h2]

/-- C1 amended witness: a task due one day ahead is counted; the window
characterization evaluated on a two-task list; the same-calendar-day and
yesterday clauses evaluated concretely. -/
theorem dueSoon_spec_witness :
    ((calculateMetrics [sampleB, tDueToday] 43200000).dueSoon
      = [sampleB, tDueToday].countP (fun t => t.status != "completed"
          && (match t.dueDate with
              | none => false
              | some d => decide (43200000 ≤ d ∧ d ≤ 43200000 + 3 * msPerDay))))
    ∧ (calculateMetrics [tDueToday] 43200000).dueSoon
        = (if (43200000 : Int) ≤ 0 then 1 else 0)
    ∧ (calculateMetrics [tDueToday] (msPerDay + 100)).dueSoon = 0 :=
  ⟨(dueSoon_spec [sampleB, tDueToday] 43200000).1,
   ((dueSoon_spec [tDueToday] 43200000).2 tDueToday 0 (by decide) (by decide)).1 (by decide),
   ((dueSoon_spec [tDueToday] (msPerDay + 100)).2 tDueToday 0 (by decide) (by decide)).2 (by decide)⟩

/-! ## Focus area (C6) -/

/-- C6: `focusArea` is chosen by first-matching rule in the fixed order:
completion at least 0.8 gives "Celebrate & optimize" regardless of the
other inputs; otherwise `dueSoon ≥ max(2, ceil(0.4 · activeCount))` gives
"Tackle upcoming deadlines"; otherwise `activeCount ≥ 6` gives "Streamline
the workload"; otherwise "Build the habit".  In particular any 10-task
collection with 8 completed tasks yields "Celebrate & optimize". -/
theorem determineFocusArea_spec (cr : ℚ) (activeCount dueSoon : Nat)
    (tasks : List Task) (now : Int) :
    (cr ≥ 4/5 → determineFocusArea cr activeCount dueSoon = celebrateFocus)
    ∧ (¬ cr ≥ 4/5 → (dueSoon : Int) ≥ max 2 ⌈(activeCount : ℚ) * (2/5)⌉ →
        determineFocusArea cr activeCount dueSoon = deadlinesFocus)
    ∧ (¬ cr ≥ 4/5 → ¬ ((dueSoon : Int) ≥ max 2 ⌈(activeCount : ℚ) * (2/5)⌉) →
        activeCount ≥ 6 → determineFocusArea cr activeCount dueSoon = streamlineFocus)
    ∧ (¬ cr ≥ 4/5 → ¬ ((dueSoon : Int) ≥ max 2 ⌈(activeCount : ℚ) * (2/5)⌉) →
        activeCount < 6 → determineFocusArea cr activeCount dueSoon = habitFocus)
    ∧ (tasks.length = 10 →
        (tasks.filter (fun t => t.status == "completed")).length = 8 →
        (calculateMetrics tasks now).focusArea = celebrateFocus) := by
  refine ⟨?_, ?_, ?_, ?_, ?_⟩
  · intro h1
    unfold determineFocusArea
    rw [if_pos h1]
  · intro h1 h2
    unfold determineFocusArea
    rw [if_neg h1, if_pos h2]
  · intro h1 h2 h3
    unfold determineFocusArea
    rw [if_neg h1, if_neg h2, if_pos h3]
  · intro h1 h2 h3
    unfold determineFocusArea
    rw [if_neg h1, if_neg h2, if_neg (by omega)]
  · intro hlen h8
    have hrate : (calculateMetrics tasks now).completionRate = 4/5 := by
      rw [metrics_completionRate_def, h8, hlen]
      norm_num
    rw [metrics_focusArea_def]
    unfold determineFocusArea
    rw [if_pos (le_of_eq hrate.symm)]

/-- C6 witness: each rule fired at a concrete input, and the 10-task /
8-completed scenario. -/
theorem determineFocusArea_spec_witness :
    determineFocusArea 1 0 0 = celebrateFocus
    ∧ determineFocusArea 0 5 2 = deadlinesFocus
    ∧ determineFocusArea 0 10 0 = streamlineFocus
    ∧ determineFocusArea 0 0 0 = habitFocus
    ∧ (calculateMetrics tenTasks 0).focusArea = celebrateFocus :=
  ⟨(determineFocusArea_spec 1 0 0 [] 0).1 (by norm_num),
   (determineFocusArea_spec 0 5 2 [] 0).2.1 (by norm_num) (by norm_num [max_def]),
   (determineFocusArea_spec 0 10 0 [] 0).2.2.1 (by norm_num) (by norm_num [max_def])
     (by norm_num),
   (determineFocusArea_spec 0 0 0 [] 0).2.2.2.1 (by norm_num) (by norm_num [max_def])
     (by norm_num),
   (determineFocusArea_spec 0 0 0 tenTasks 0).2.2.2.2 (by decide) (by decide)⟩

/-! ## Metrics on the empty collection and completion-rate bounds (C8) -/

/-- C8: `calculateMetrics` on the empty collection yields completion rate
0, streak 0, `dueSoon` 0, `highPriority` 0, `activeCount` 0, every
`byStatus` count and percentage 0; and for every input the completion rate
equals the completed count divided by `max 1 total` — a strictly positive
divisor, so no division by zero — giving `0 ≤ completionRate ≤ 1`
unconditionally. -/
theorem calculateMetrics_empty_safe :
    (∀ now : Int, calculateMetrics [] now =
      { completionRate := 0, highPriority := 0, dueSoon := 0, activeCount := 0,
        streak := 0,
        momentumComment := "Plot your next move and reclaim the day.",
        byStatus := [⟨"today", 0, 0⟩, ⟨"upcoming", 0, 0⟩, ⟨"backlog", 0, 0⟩,
          ⟨"completed", 0, 0⟩],
        focusArea := habitFocus })
    ∧ (∀ (tasks : List Task) (now : Int),
        (calculateMetrics tasks now).completionRate
          = ((tasks.filter (fun t => t.status == "completed")).length : ℚ)
              / ((max 1 tasks.length : Nat) : ℚ)
        ∧ (0 : ℚ) < ((max 1 tasks.length : Nat) : ℚ)
        ∧ 0 ≤ (calculateMetrics tasks now).completionRate
        ∧ (calculateMetrics tasks now).completionRate ≤ 1) := by
  constructor
  · intro now
    simp only [calculateMetrics, calculateStreak, statusKeys, jsRound,
      determineFocusArea, habitFocus]
    norm_num [max_def]
  · intro tasks now
    have htot : (if tasks.length = 0 then 1 else tasks.length) = max 1 tasks.length := by
      by_cases h : tasks.length = 0
      · simp [h]
      · simp only [if_neg h]
        omega
    have hrate := metrics_completionRate_def tasks now
    rw [htot] at hrate
    have hpos : (0 : ℚ) < ((max 1 tasks.length : Nat) : ℚ) := by
      have : 0 < max 1 tasks.length := by omega
      exact_mod_cast this
    have hle : ((tasks.filter (fun t => t.status == "completed")).length : ℚ)
        ≤ ((max 1 tasks.length : Nat) : ℚ) := by
      have h1 : (tasks.filter (fun t => t.status == "completed")).length
          ≤ max 1 tasks.length :=
        le_trans (List.length_filter_le _ tasks) (le_max_right 1 _)
      exact_mod_cast h1
    refine ⟨hrate, hpos, ?_, ?_⟩
    · rw [hrate]
      exact div_nonneg (by positivity) (le_of_lt hpos)
    · rw [hrate]
      rw [div_le_one hpos]
      exact hle

/-! ## Toggle and move (C9, C10) -/

/-- C9: `completedAt` is coupled to status only through the toggle
operation — toggling a non-completed task sets status `completed` and
stamps `completedAt` with the current instant; toggling a completed task
clears `completedAt`; the move operation rewrites only the status field of
the addressed task; and both operations leave every task with a different
id unchanged at its position. -/
theorem toggle_move_frame (now : Int) (tid st : String) (tasks : List Task)
    (i : Nat) (task : Task) (hi : tasks[i]? = some task) :
    (task.id ≠ tid →
        (handleToggleComplete now tid tasks)[i]? = some task
        ∧ (handleStatusChange tid st tasks)[i]? = some task)
    ∧ (task.id = tid → task.status ≠ "completed" →
        (handleToggleComplete now tid tasks)[i]?
          = some { task with status := "completed", completedAt := some now })
    ∧ (task.id = tid → task.status = "completed" →
        ((handleToggleComplete now tid tasks)[i]?).map Task.completedAt
          = some none)
    ∧ (task.id = tid →
        (handleStatusChange tid st tasks)[i]? = some { task with status := st }) := by
  refine ⟨?_, ?_, ?_, ?_⟩
  · intro hid
    constructor
    · simp [handleToggleComplete, List.getElem?_map, hi, hid]
    · simp [handleStatusChange, List.getElem?_map, hi, hid]
  · intro hid hst
    simp [handleToggleComplete, List.getElem?_map, hi, hid, hst]
  · intro hid hst
    simp [handleToggleComplete, List.getElem?_map, hi, hid, hst]
  · intro hid
    simp [handleStatusChange, List.getElem?_map, hi, hid]

/-- C9 witness: a two-task list, probed at index 0 with a foreign id and
with the task's own id, in both the non-completed-toggle and the move
branches. -/
theorem toggle_move_frame_witness :
    ((handleToggleComplete 7 "zzz" [sampleA, sampleB])[0]? = some sampleA
      ∧ (handleStatusChange "zzz" "backlog" [sampleA, sampleB])[0]? = some sampleA)
    ∧ (handleToggleComplete 7 "A" [sampleA, sampleB])[0]?
        = some { sampleA with status := "completed", completedAt := some 7 }
    ∧ (handleStatusChange "A" "backlog" [sampleA, sampleB])[0]?
        = some { sampleA with status := "backlog" } :=
  ⟨(toggle_move_frame 7 "zzz" "backlog" [sampleA, sampleB] 0 sampleA
      (by decide)).1 (by decide),
   (toggle_move_frame 7 "A" "backlog" [sampleA, sampleB] 0 sampleA
      (by decide)).2.1 (by decide) (by decide),
   (toggle_move_frame 7 "A" "backlog" [sampleA, sampleB] 0 sampleA
      (by decide)).2.2.2 (by decide)⟩

/-- C10: toggling a completed task sets its status to the fixed value
`"today"` — not to the status the task had before completion — while
clearing `completedAt`; indeed completing any active task (whatever its
status) and toggling again always lands on `"today"`, since no operation
records the pre-completion status. -/
theorem toggle_completed_to_today (now now2 : Int) (tid : String) (t : Task)
    (hid : t.id = tid) :
    (t.status = "completed" →
        handleToggleComplete now tid [t]
          = [{ t with status := "today", completedAt := none }])
    ∧ ∀ s : String, s ≠ "completed" →
        handleToggleComplete now2 tid
            (handleToggleComplete now tid [{ t with status := s }])
          = [{ t with status := "today", completedAt := none }] := by
  constructor
  · intro hst
    simp [handleToggleComplete, hid, hst]
  · intro s hs
    simp [handleToggleComplete, hid, hs]

/-- C10 witness: toggling a completed task, and double-toggling a task that
started in status `"upcoming"`, both land on `"today"` with `completedAt`
cleared. -/
theorem toggle_completed_to_today_witness :
    handleToggleComplete 5 "done0" [doneTask 0]
      = [{ doneTask 0 with status := "today", completedAt := none }]
    ∧ handleToggleComplete 6 "A"
        (handleToggleComplete 5 "A" [{ sampleA with status := "upcoming" }])
      = [{ sampleA with status := "today", completedAt := none }] :=
  ⟨(toggle_completed_to_today 5 6 "done0" (doneTask 0) (by decide)).1 (by decide),
   (toggle_completed_to_today 5 6 "A" sampleA (by decide)).2 "upcoming" (by decide)⟩

end Tasked
